import Mathlib

/-!
# Verification of the connvitals protocol/engine layer

A shallow embedding of the core algorithms of the `connvitals` network
diagnostics tool, together with proofs about them.  Python byte strings are
modelled as `List ℕ` (each entry a byte value), Python floats appearing in
pure arithmetic are modelled as `ℚ`, and Python exceptions that a caller
catches are modelled with `Option` or with explicit fallback values, exactly
following the control flow of the source.

Conventions used throughout:
* The host is assumed little-endian (the `sys.byteorder == "little"` branch
  of the checksum routines); this is the branch the tool takes on all common
  deployments and the only branch the byte-order dependent code exercises.
* Python's `(~t) & 0xffff` on a nonnegative `t` equals `65535 - t % 65536`;
  that arithmetic form is used directly.
* `socket.htons` on a little-endian host swaps the two bytes of a 16-bit
  value.
-/

namespace Connvitals

/-! ## ICMPv4 checksum (`icmp.ICMPv4_checksum`, `ping.Pinger._checksum4`)

The source loops over the buffer two bytes at a time, building 16-bit words
in host (little-endian) order: `total += pkt[count+1] * 256 + pkt[count]`.
A trailing odd byte is added by itself.  The sum is truncated to 32 bits,
the high half is folded into the low half twice, and the one's complement of
the result is returned through `htons`.
-/

/-- Sum of little-endian 16-bit words of a byte list, with a trailing odd
byte added alone — the summation loop of `ICMPv4_checksum`. -/
def sumLEWords : List ℕ → ℕ
  | [] => 0
  | [b] => b
  | b0 :: b1 :: rest => (b1 * 256 + b0) + sumLEWords rest

/-- The 32-bit truncation followed by the two carry folds of
`ICMPv4_checksum`:
`total &= 0xffffffff`, `total = (total >> 16) + (total & 0xffff)`,
`total += total >> 16`. -/
def foldCarry (s : ℕ) : ℕ :=
  s % 4294967296 / 65536 + s % 4294967296 % 65536 +
    (s % 4294967296 / 65536 + s % 4294967296 % 65536) / 65536

/-- Python's `(~t) & 0xffff` for nonnegative `t`. -/
def complement16 (t : ℕ) : ℕ := 65535 - t % 65536

/-- `socket.htons` on a little-endian host: swap the two bytes of a 16-bit
value. -/
def htons16 (x : ℕ) : ℕ := x % 256 * 256 + x / 256

/-- `ICMPv4_checksum` / `Pinger._checksum4`: one's-complement 16-bit sum of
the buffer, folded and complemented, returned in network byte order. -/
def checksumV4 (pkt : List ℕ) : ℕ :=
  htons16 (complement16 (foldCarry (sumLEWords pkt)))

/-- Patch a 16-bit checksum value into the ICMP checksum field (bytes 2 and
3) of a buffer, in network byte order, as `struct.pack("!BBHHH", ...)` does
in `Pinger._mkPkt4`. -/
def patchChecksum (b : List ℕ) (c : ℕ) : List ℕ :=
  (b.set 2 (c / 256)).set 3 (c % 256)

/-- Evaluation of the fold on a sum written as high and low 16-bit halves. -/
lemma foldCarry_eq (a b : ℕ) (ha : a ≤ 65535) (hb : b ≤ 65535) :
    foldCarry (65536 * a + b) = a + b + (a + b) / 65536 := by
  unfold foldCarry
  omega

/-- Core of checksum self-consistency, for sums already below `2^32`:
adding the complement of the folded sum back into the sum makes the folded
result congruent to `0xffff`. -/
lemma foldCore (T : ℕ) (hT : T < 4294967296) :
    foldCarry (T + complement16 (foldCarry T)) % 65536 = 65535 := by
  have hT' : T = 65536 * (T / 65536) + T % 65536 := by omega
  have hhib : T / 65536 ≤ 65535 := by omega
  have hlob : T % 65536 ≤ 65535 := by omega
  have f1 : foldCarry T
      = T / 65536 + T % 65536 + (T / 65536 + T % 65536) / 65536 := by
    have h := foldCarry_eq (T / 65536) (T % 65536) hhib hlob
    rw [← hT'] at h
    exact h
  have hu : complement16 (foldCarry T)
      = 65535 - (T / 65536 + T % 65536 + (T / 65536 + T % 65536) / 65536) % 65536 := by
    rw [f1]; rfl
  rw [hu]
  rcases Nat.lt_or_ge (T / 65536 + T % 65536) 65536 with hc | hc
  · have hX : T + (65535 - (T / 65536 + T % 65536 + (T / 65536 + T % 65536) / 65536) % 65536)
        = 65536 * (T / 65536) + (65535 - T / 65536) := by omega
    rw [hX, foldCarry_eq (T / 65536) (65535 - T / 65536) hhib (by omega)]
    omega
  · have hd1 : (T / 65536 + T % 65536) / 65536 = 1 := by omega
    rw [hd1]
    have hm : (T / 65536 + T % 65536 + 1) % 65536 = T / 65536 + T % 65536 - 65535 := by
      omega
    rw [hm]
    rcases Nat.lt_or_ge (T / 65536) 65535 with hh | hh
    · have hX : T + (65535 - (T / 65536 + T % 65536 - 65535))
          = 65536 * (T / 65536 + 1) + (65534 - T / 65536) := by omega
      rw [hX, foldCarry_eq (T / 65536 + 1) (65534 - T / 65536) (by omega) (by omega)]
      omega
    · have hX : T + (65535 - (T / 65536 + T % 65536 - 65535)) = 4294967295 := by omega
      rw [hX]
      decide

/-- Arithmetic core of checksum self-consistency: adding the byte-swapped
complement of the folded sum back into the sum makes the folded result
congruent to `0xffff`. -/
theorem foldCarry_add_complement (s : ℕ) :
    foldCarry (s + complement16 (foldCarry s)) % 65536 = 65535 := by
  have h1 : foldCarry s = foldCarry (s % 4294967296) := by
    unfold foldCarry; omega
  rw [h1]
  have h3 : foldCarry (s + complement16 (foldCarry (s % 4294967296)))
      = foldCarry (s % 4294967296 + complement16 (foldCarry (s % 4294967296))) := by
    generalize complement16 (foldCarry (s % 4294967296)) = u
    unfold foldCarry
    omega
  rw [h3]
  exact foldCore (s % 4294967296) (Nat.mod_lt s (by norm_num))

/-- `complement16` always yields a 16-bit value. -/
lemma complement16_le (t : ℕ) : complement16 t ≤ 65535 := by
  unfold complement16; omega

/-- Byte-swapping a 16-bit value with `htons16` and reading the result back
as a little-endian word recovers the value. -/
lemma htons16_round (w : ℕ) (h : w ≤ 65535) :
    htons16 w % 256 * 256 + htons16 w / 256 = w := by
  unfold htons16; omega

/-- Unfolding `sumLEWords` over the first four bytes. -/
lemma sumLEWords_cons4 (a b c d : ℕ) (rest : List ℕ) :
    sumLEWords (a :: b :: c :: d :: rest)
      = b * 256 + a + (d * 256 + c + sumLEWords rest) := rfl

/-- `patchChecksum` on a buffer of length at least four replaces bytes 2
and 3 with the big-endian bytes of the checksum. -/
lemma patchChecksum_cons4 (a b c d x : ℕ) (rest : List ℕ) :
    patchChecksum (a :: b :: c :: d :: rest) x
      = a :: b :: (x / 256) :: (x % 256) :: rest := rfl

example : checksumV4 [1, 2, 3, 4, 5] = 63225 := by decide

example : checksumV4 [8, 0, 0, 0, 0, 2, 0, 7] = 63478 := by decide

/-- C2: for every byte buffer of length at least 4 whose 16-bit checksum
field (bytes 2 and 3) is zero, patching `checksumV4` of the buffer into the
checksum field yields a buffer over which re-running `checksumV4` gives
zero — the one's-complement sum including the checksum field folds to
`0xFFFF`.  (The zero-field requirement is forced by
`checksumV4_self_consistency_cex` below; the source always computes the
checksum over a buffer whose checksum field is zeroed.) -/
theorem checksumV4_self_consistency (x0 x1 : ℕ) (rest : List ℕ) :
    checksumV4 (patchChecksum (x0 :: x1 :: 0 :: 0 :: rest)
      (checksumV4 (x0 :: x1 :: 0 :: 0 :: rest))) = 0 := by
  have e0 : checksumV4 (x0 :: x1 :: 0 :: 0 :: rest)
      = htons16 (complement16 (foldCarry
          (x1 * 256 + x0 + (0 * 256 + 0 + sumLEWords rest)))) := rfl
  rw [patchChecksum_cons4]
  show htons16 (complement16 (foldCarry (sumLEWords
      (x0 :: x1 :: (checksumV4 (x0 :: x1 :: 0 :: 0 :: rest) / 256) ::
        (checksumV4 (x0 :: x1 :: 0 :: 0 :: rest) % 256) :: rest)))) = 0
  rw [sumLEWords_cons4, e0,
    htons16_round (complement16 (foldCarry (x1 * 256 + x0 + (0 * 256 + 0 + sumLEWords rest))))
      (complement16_le _)]
  have harith : x1 * 256 + x0 +
        (complement16 (foldCarry (x1 * 256 + x0 + (0 * 256 + 0 + sumLEWords rest)))
          + sumLEWords rest)
      = x1 * 256 + x0 + (0 * 256 + 0 + sumLEWords rest)
          + complement16 (foldCarry (x1 * 256 + x0 + (0 * 256 + 0 + sumLEWords rest))) := by
    omega
  rw [harith]
  have key := foldCarry_add_complement (x1 * 256 + x0 + (0 * 256 + 0 + sumLEWords rest))
  generalize foldCarry (x1 * 256 + x0 + (0 * 256 + 0 + sumLEWords rest)
      + complement16 (foldCarry (x1 * 256 + x0 + (0 * 256 + 0 + sumLEWords rest)))) = X at key ⊢
  unfold complement16 htons16
  omega

/-- C2 counterexample: the claim fails on a buffer whose checksum field is
not zero.  For the buffer `[0, 0, 1, 0]` (checksum field holds `0x0100`),
patching the computed checksum in and re-running the checksum yields
`0x0100`, not zero. -/
theorem checksumV4_self_consistency_cex :
    checksumV4 (patchChecksum [0, 0, 1, 0] (checksumV4 [0, 0, 1, 0])) ≠ 0 := by
  decide

/-! ## Echo request construction (`ping.Pinger._mkPkt4` / `_mkPkt6`)

`struct.pack("!BBHHH", type, code, cksum, id, seq)` lays out one byte each
for type and code followed by three big-endian 16-bit fields.  The IPv4
builder checksums the header concatenated with the payload; the IPv6
builder passes only the 8-byte header to `_checksum6` (so the pseudo-header
length field is 8 and the payload is not covered), then appends the payload
to the emitted packet.
-/

/-- `struct.pack("!BBHHH", t, c, ck, ident, seq)` for 16-bit field values. -/
def packBBHHH (t c ck ident seq : ℕ) : List ℕ :=
  [t, c, ck / 256, ck % 256, ident / 256, ident % 256, seq / 256, seq % 256]

/-- `struct.pack("!I", n)`: four big-endian bytes. -/
def packU32 (n : ℕ) : List ℕ :=
  [n / 16777216 % 256, n / 65536 % 256, n / 256 % 256, n % 256]

/-- Sum of big-endian 16-bit words with an odd trailing byte added as a high
byte — the summation of `ICMPv6_checksum` (`Pinger._checksum6`). -/
def sumBEWords : List ℕ → ℕ
  | [] => 0
  | [b] => b * 256
  | b0 :: b1 :: rest => (b0 * 256 + b1) + sumBEWords rest

/-- The two carry folds of `ICMPv6_checksum`; unlike the IPv4 routine there
is no 32-bit truncation. -/
def foldCarry6 (s : ℕ) : ℕ :=
  s / 65536 + s % 65536 + (s / 65536 + s % 65536) / 65536

/-- `ICMPv6_checksum` / `Pinger._checksum6`: the IPv6 pseudo-header
(source address, destination address, 4-byte upper-layer length, three zero
bytes and the protocol number 58) is prepended to the message, the
big-endian words are summed and folded, and the result is complemented:
Python's `~total + 0x10000 & 0xffff`. -/
def checksum6 (pkt laddr raddr : List ℕ) : ℕ :=
  complement16 (foldCarry6 (sumBEWords
    (laddr ++ raddr ++ packU32 pkt.length ++ [0, 0, 0, 58] ++ pkt)))

/-- `Pinger._mkPkt4`: checksum over header plus payload, patched into the
emitted packet (identifier 2). -/
def mkPkt4 (payload : List ℕ) (seqno : ℕ) : List ℕ :=
  packBBHHH 8 0 (checksumV4 (packBBHHH 8 0 0 2 seqno ++ payload)) 2 seqno ++ payload

/-- `Pinger._mkPkt6`: the checksum is computed over the 8-byte header only
(`self._checksum6(header)` in the source), yet the payload is appended to
the emitted packet. -/
def mkPkt6 (laddr raddr payload : List ℕ) (seqno : ℕ) : List ℕ :=
  packBBHHH 128 0 (checksum6 (packBBHHH 128 0 0 2 seqno) laddr raddr) 2 seqno ++ payload

example : checksum6 (packBBHHH 128 0 0 2 0) (List.replicate 16 0) (List.replicate 16 0)
    = 32699 := by decide

/-- C3: evaluation at the failing input.  For the IPv6 family with payload
`[1]` (local and remote address all-zero, sequence 0), the checksum field
of the emitted echo request equals the checksum of the bare header and
differs from the family checksum of the entire encoded message
(header plus payload) — the builder does not checksum the payload, contrary
to the claim. -/
theorem mkPkt6_checksum_ignores_payload :
    (mkPkt6 (List.replicate 16 0) (List.replicate 16 0) [1] 0).getD 2 0 * 256
        + (mkPkt6 (List.replicate 16 0) (List.replicate 16 0) [1] 0).getD 3 0
      = checksum6 (packBBHHH 128 0 0 2 0) (List.replicate 16 0) (List.replicate 16 0) ∧
    (mkPkt6 (List.replicate 16 0) (List.replicate 16 0) [1] 0).getD 2 0 * 256
        + (mkPkt6 (List.replicate 16 0) (List.replicate 16 0) [1] 0).getD 3 0
      ≠ checksum6 (packBBHHH 128 0 0 2 0 ++ [1])
          (List.replicate 16 0) (List.replicate 16 0) := by
  exact ⟨by decide, by decide⟩

/-! ## Echo reply parsing (`ping.Pinger._icmpv4Parse` / `_icmpv6Parse`)

The source wraps the accesses in `try ... except (IndexError, struct.error)`
and returns `-1` on any failure: `pkt[20]` raises `IndexError` when the
buffer has at most 20 bytes, and `struct.unpack("!H", pkt[26:28])` raises
`struct.error` unless the slice has exactly two bytes, i.e. unless the
buffer has at least 28 bytes.  In-range accesses are modelled with
`List.getD`, which agrees with the Python access under the bound check.
-/

/-- `Pinger._icmpv4Parse`: on an IPv4 raw socket the IP header occupies the
first 20 bytes, so the ICMP type is byte 20 (0 = Echo Reply) and the
sequence number is bytes 26–28. -/
def icmpv4Parse (pkt : List ℕ) : Int :=
  if 20 < pkt.length then
    if pkt.getD 20 0 = 0 then
      if 28 ≤ pkt.length then ((pkt.getD 26 0 * 256 + pkt.getD 27 0 : ℕ) : Int)
      else -1
    else -1
  else -1

/-- `Pinger._icmpv6Parse`: an IPv6 raw ICMP socket delivers the ICMP
message directly, so the type is byte 0 (129 = Echo Reply) and the sequence
number is bytes 6–8. -/
def icmpv6Parse (pkt : List ℕ) : Int :=
  if 0 < pkt.length then
    if pkt.getD 0 0 = 129 then
      if 8 ≤ pkt.length then ((pkt.getD 6 0 * 256 + pkt.getD 7 0 : ℕ) : Int)
      else -1
    else -1
  else -1

example :
    icmpv4Parse (List.replicate 20 9 ++ [0, 0, 0, 0, 0, 0, 1, 2]) = 258 := by decide

example : icmpv6Parse [129, 0, 0, 0, 0, 0, 1, 2] = 258 := by decide

/-- C4: the echo reply parsers are total on arbitrary byte strings.  For
IPv4 the type is read at offset 20 and the sequence at bytes 26–28; for
IPv6 the type at byte 0 and the sequence at bytes 6–8; every input that is
too short, fails to unpack, or is not an echo reply yields the discard
value −1 instead of an error. -/
theorem icmpParse_total (pkt : List ℕ) :
    (icmpv4Parse pkt = -1 ∨
      (28 ≤ pkt.length ∧ pkt.getD 20 0 = 0 ∧ 0 ≤ icmpv4Parse pkt ∧
        icmpv4Parse pkt = ((pkt.getD 26 0 * 256 + pkt.getD 27 0 : ℕ) : Int))) ∧
    ((pkt.length < 28 ∨ pkt.getD 20 0 ≠ 0) → icmpv4Parse pkt = -1) ∧
    (icmpv6Parse pkt = -1 ∨
      (8 ≤ pkt.length ∧ pkt.getD 0 0 = 129 ∧ 0 ≤ icmpv6Parse pkt ∧
        icmpv6Parse pkt = ((pkt.getD 6 0 * 256 + pkt.getD 7 0 : ℕ) : Int))) ∧
    ((pkt.length < 8 ∨ pkt.getD 0 0 ≠ 129) → icmpv6Parse pkt = -1) := by
  refine ⟨?_, ?_, ?_, ?_⟩
  · unfold icmpv4Parse
    split_ifs with h1 h2 h3
    · exact Or.inr ⟨h3, h2, Int.natCast_nonneg _, rfl⟩
    · exact Or.inl rfl
    · exact Or.inl rfl
    · exact Or.inl rfl
  · intro h
    unfold icmpv4Parse
    split_ifs with h1 h2 h3
    · rcases h with h | h
      · omega
      · exact absurd h2 h
    · rfl
    · rfl
    · rfl
  · unfold icmpv6Parse
    split_ifs with h1 h2 h3
    · exact Or.inr ⟨h3, h2, Int.natCast_nonneg _, rfl⟩
    · exact Or.inl rfl
    · exact Or.inl rfl
    · exact Or.inl rfl
  · intro h
    unfold icmpv6Parse
    split_ifs with h1 h2 h3
    · rcases h with h | h
      · omega
      · exact absurd h2 h
    · rfl
    · rfl
    · rfl

/-- C4 witness: the characterization applied to the concrete two-byte
buffer `[7, 7]`, which is too short for either family and is discarded. -/
theorem icmpParse_total_witness :
    ([7, 7] : List ℕ).length < 28 ∧ icmpv4Parse [7, 7] = -1 ∧ icmpv6Parse [7, 7] = -1 :=
  ⟨by decide, (icmpParse_total [7, 7]).2.1 (Or.inl (by decide)),
    (icmpParse_total [7, 7]).2.2.2 (Or.inl (by decide))⟩

/-! ## Ping statistics aggregation (`collector.Collector.ping` / `run`)

`Collector.ping` maps `Pinger.ping` over the sequence numbers, collects
`pkt * 1000` for every result that is not `None` and strictly positive, and
counts every other slot as lost.  It then computes the average, the sample
standard deviation (`ZeroDivisionError` from the `len(rtt) - 1` divisor is
caught and yields 0), and the loss percentage.  With zero received samples,
`min(rtt)` raises `ValueError`, which `Collector.run` catches by storing
the sentinel `PingResult(-1, -1, -1, -1, 100.)`.

The Lean `PingResult.std` field holds the code's `std` value *before*
`math.sqrt` is applied (so the development stays in `ℚ`); the claims about
the standard deviation itself are stated through `Real.sqrt` of that field.
The sentinel stores −1 directly, as the source does.
-/

/-- A ping statistics record (`utils.PingResult`); `std` holds the radicand
of the code's final `math.sqrt` (see the section comment). -/
structure PingResult where
  minimum : ℚ
  avg : ℚ
  maximum : ℚ
  std : ℚ
  loss : ℚ
deriving DecidableEq

/-- The sentinel `PingResult(-1, -1, -1, -1, 100.)` stored by
`Collector.run` when the ping round produced no samples. -/
def pingSentinel : PingResult := ⟨-1, -1, -1, -1, 100⟩

/-- The round-trip samples kept by the loop in `Collector.ping`: every
entry that is not `None` and strictly positive, scaled to milliseconds. -/
def receivedMs (pkts : List (Option ℚ)) : List ℚ :=
  pkts.filterMap fun p =>
    match p with
    | some v => if 0 < v then some (v * 1000) else none
    | none => none

/-- `Collector.ping`: statistics over one round of `pkts.length` packets.
`none` models the `ValueError` that `min([])` raises when every packet was
lost (caught by `Collector.run`). -/
def collectorPing (pkts : List (Option ℚ)) : Option PingResult :=
  let rtt := receivedMs pkts
  match rtt with
  | [] => none
  | x :: xs =>
    let n : ℚ := rtt.length
    let avg := rtt.sum / n
    let std := if rtt.length = 1 then 0
               else (rtt.map fun i => (avg - i) ^ 2).sum / (n - 1)
    some ⟨xs.foldl min x, avg, xs.foldl max x, std,
          ((pkts.length - rtt.length : ℕ) : ℚ) / (pkts.length : ℚ) * 100⟩

/-- `Collector.run`, ping slot: the result of `Collector.ping`, or the
sentinel when the round failed with `ValueError`. -/
def collectorRunPing (pkts : List (Option ℚ)) : PingResult :=
  (collectorPing pkts).getD pingSentinel

/-- Python's `min` over a nonempty list is a member of the list. -/
lemma foldl_min_mem {α : Type*} [LinearOrder α] (xs : List α) (x : α) :
    xs.foldl min x ∈ x :: xs := by
  induction xs generalizing x with
  | nil => simp
  | cons y ys ih =>
    simp only [List.foldl_cons]
    rcases List.mem_cons.mp (ih (min x y)) with h | h
    · rcases min_choice x y with hm | hm
      · exact List.mem_cons.mpr (Or.inl (h.trans hm))
      · exact List.mem_cons.mpr (Or.inr (List.mem_cons.mpr (Or.inl (h.trans hm))))
    · exact List.mem_cons.mpr (Or.inr (List.mem_cons.mpr (Or.inr h)))

/-- Python's `min` over a nonempty list bounds every member from below. -/
lemma foldl_min_le {α : Type*} [LinearOrder α] (xs : List α) (x : α) :
    ∀ s ∈ x :: xs, xs.foldl min x ≤ s := by
  induction xs generalizing x with
  | nil =>
    intro s hs
    rcases List.mem_cons.mp hs with rfl | hs'
    · exact le_refl _
    · simp at hs'
  | cons y ys ih =>
    intro s hs
    simp only [List.foldl_cons]
    rcases List.mem_cons.mp hs with rfl | hs'
    · exact (ih (min s y) (min s y) (List.mem_cons_self _ _)).trans (min_le_left _ _)
    · rcases List.mem_cons.mp hs' with rfl | hs''
      · exact (ih (min x s) (min x s) (List.mem_cons_self _ _)).trans (min_le_right _ _)
      · exact ih (min x y) s (List.mem_cons.mpr (Or.inr hs''))

/-- Python's `max` over a nonempty list is a member of the list. -/
lemma foldl_max_mem {α : Type*} [LinearOrder α] (xs : List α) (x : α) :
    xs.foldl max x ∈ x :: xs := by
  induction xs generalizing x with
  | nil => simp
  | cons y ys ih =>
    simp only [List.foldl_cons]
    rcases List.mem_cons.mp (ih (max x y)) with h | h
    · rcases max_choice x y with hm | hm
      · exact List.mem_cons.mpr (Or.inl (h.trans hm))
      · exact List.mem_cons.mpr (Or.inr (List.mem_cons.mpr (Or.inl (h.trans hm))))
    · exact List.mem_cons.mpr (Or.inr (List.mem_cons.mpr (Or.inr h)))

/-- Python's `max` over a nonempty list bounds every member from above. -/
lemma foldl_le_max {α : Type*} [LinearOrder α] (xs : List α) (x : α) :
    ∀ s ∈ x :: xs, s ≤ xs.foldl max x := by
  induction xs generalizing x with
  | nil =>
    intro s hs
    rcases List.mem_cons.mp hs with rfl | hs'
    · exact le_refl _
    · simp at hs'
  | cons y ys ih =>
    intro s hs
    simp only [List.foldl_cons]
    rcases List.mem_cons.mp hs with rfl | hs'
    · exact (le_max_left _ _).trans (ih (max s y) (max s y) (List.mem_cons_self _ _))
    · rcases List.mem_cons.mp hs' with rfl | hs''
      · exact (le_max_right _ _).trans (ih (max x s) (max x s) (List.mem_cons_self _ _))
      · exact ih (max x y) s (List.mem_cons.mpr (Or.inr hs''))

/-- C1: for a ping round over `pkts.length` packets, the computed result
has `minimum`/`maximum` the least/greatest received sample, `avg` their
mean, the standard deviation (`Real.sqrt` of the stored `std` field) the
sample standard deviation with `n − 1` in the denominator — zero when
fewer than two samples were received — and `loss` equal to
`lost / count × 100`; when every packet is lost the stored result is the
sentinel `PingResult` rather than a division-by-zero failure. -/
theorem collector_ping_stats (pkts : List (Option ℚ)) :
    (receivedMs pkts = [] → collectorRunPing pkts = pingSentinel) ∧
    ∀ r, collectorPing pkts = some r →
      r.minimum ∈ receivedMs pkts ∧ (∀ s ∈ receivedMs pkts, r.minimum ≤ s) ∧
      r.maximum ∈ receivedMs pkts ∧ (∀ s ∈ receivedMs pkts, s ≤ r.maximum) ∧
      r.avg = (receivedMs pkts).sum / ((receivedMs pkts).length : ℚ) ∧
      ((receivedMs pkts).length < 2 → r.std = 0) ∧
      (2 ≤ (receivedMs pkts).length →
        r.std = ((receivedMs pkts).map fun i =>
            ((receivedMs pkts).sum / ((receivedMs pkts).length : ℚ) - i) ^ 2).sum
          / (((receivedMs pkts).length : ℚ) - 1) ∧
        Real.sqrt (r.std : ℝ) = Real.sqrt ((((receivedMs pkts).map fun i =>
            ((receivedMs pkts).sum / ((receivedMs pkts).length : ℚ) - i) ^ 2).sum
          / (((receivedMs pkts).length : ℚ) - 1) : ℚ) : ℝ)) ∧
      r.loss = ((pkts.length - (receivedMs pkts).length : ℕ) : ℚ)
          / (pkts.length : ℚ) * 100 := by
  constructor
  · intro h
    simp [collectorRunPing, collectorPing, h]
  · intro r hr
    rcases hl : receivedMs pkts with _ | ⟨x, xs⟩
    · simp [collectorPing, hl] at hr
    · simp only [collectorPing, hl, Option.some.injEq] at hr
      subst hr
      simp only [hl]
      refine ⟨foldl_min_mem xs x, foldl_min_le xs x, foldl_max_mem xs x,
        foldl_le_max xs x, by trivial, ?_, ?_, by trivial⟩
      · intro hlen
        have hxs : xs = [] := by
          have h0 : xs.length = 0 := by
            simp only [List.length_cons] at hlen
            omega
          exact List.length_eq_zero.mp h0
        subst hxs
        simp
      · intro hlen
        have hne : ¬ (x :: xs).length = 1 := by
          intro hc
          rw [hc] at hlen
          omega
        constructor
        · simp only [if_neg hne]
        · simp only [if_neg hne]

/-- C1 witness: the claim applied to the round with samples 10 ms, 20 ms
and 30 ms and no losses (`[10, 20, 30]` from the spec's test vector):
the minimum of the computed result is a received sample. -/
theorem collector_ping_stats_witness :
    collectorPing [some (1 / 100), some (1 / 50), some (3 / 100)]
      = some ⟨10, 20, 30, 100, 0⟩ ∧
    (⟨10, 20, 30, 100, 0⟩ : PingResult).minimum
      ∈ receivedMs [some (1 / 100), some (1 / 50), some (3 / 100)] := by
  have hsamp : receivedMs [some (1 / 100), some (1 / 50), some (3 / 100)]
      = [10, 20, 30] := by
    simp only [receivedMs, List.filterMap_cons, List.filterMap_nil]
    norm_num
  have hres : collectorPing [some (1 / 100), some (1 / 50), some (3 / 100)]
      = some ⟨10, 20, 30, 100, 0⟩ := by
    rw [collectorPing, hsamp]
    norm_num
  exact ⟨hres, ((collector_ping_stats [some (1 / 100), some (1 / 50), some (3 / 100)]).2
    ⟨10, 20, 30, 100, 0⟩ hres).1⟩

/-! ## Route tracing (`traceroute.trace`)

One step of a route trace (`utils.TraceStep`) pairs a hop address with a
round-trip time; the sentinel step is `("*", -1)`.  The per-ttl loop body of
the functional `trace` has three outcomes: the UDP send fails with
`OSError` (append the sentinel, `continue`), the receive loop times out
(append the sentinel, keep going), or a qualifying response arrives
(append the responder address with its rtt scaled to milliseconds, and
stop if the responder is the target host).
-/

/-- One hop of a route trace (`utils.TraceStep`). -/
structure TraceStep where
  host : String
  rtt : ℚ
deriving DecidableEq

/-- Environment of one ttl iteration of `traceroute.trace`: a send failure,
a receive timeout, or a qualifying response with responder address and
round-trip time in seconds. -/
inductive HopOutcome
  | sendErr : HopOutcome
  | timeout : HopOutcome
  | reply : String → ℚ → HopOutcome
deriving DecidableEq

/-- The ttl loop of `traceroute.trace` (lines 196–231): one outcome per
ttl value, at most `hops` of them; `continue` after a send error and after
a timeout, early `break` when the responder address equals the target. -/
def traceRun (target : String) : List HopOutcome → List TraceStep
  | [] => []
  | .sendErr :: rest => ⟨"*", -1⟩ :: traceRun target rest
  | .timeout :: rest => ⟨"*", -1⟩ :: traceRun target rest
  | .reply a r :: rest =>
      ⟨a, r * 1000⟩ :: (if a = target then [] else traceRun target rest)

example :
    traceRun "9.8.7.6" [.timeout, .reply "1.1.1.1" 2, .reply "9.8.7.6" 3, .timeout]
      = [⟨"*", -1⟩, ⟨"1.1.1.1", 2000⟩, ⟨"9.8.7.6", 3000⟩] := by
  simp [traceRun]
  norm_num

/-- C5: a route trace over at most `outcomes.length = H` ttl values yields
at most `H` steps; a ttl that times out contributes exactly one sentinel
step `("*", -1)` without stopping the trace; and any step whose address
equals the target host's address is the last step of the trace. -/
theorem trace_invariants (target : String) (outcomes : List HopOutcome)
    (htarget : target ≠ "*") :
    (traceRun target outcomes).length ≤ outcomes.length ∧
    (∀ rest : List HopOutcome,
      traceRun target (.timeout :: rest) = ⟨"*", -1⟩ :: traceRun target rest) ∧
    (∀ i (h : i < (traceRun target outcomes).length),
      ((traceRun target outcomes).get ⟨i, h⟩).host = target →
        i = (traceRun target outcomes).length - 1) := by
  refine ⟨?_, fun rest => rfl, ?_⟩
  · induction outcomes with
    | nil => simp [traceRun]
    | cons o rest ih =>
      cases o with
      | sendErr => simpa [traceRun] using Nat.succ_le_succ ih
      | timeout => simpa [traceRun] using Nat.succ_le_succ ih
      | reply a r =>
        by_cases ha : a = target
        · simp [traceRun, ha]
        · simpa [traceRun, ha] using Nat.succ_le_succ ih
  · induction outcomes with
    | nil => intro i h; simp [traceRun] at h
    | cons o rest ih =>
      intro i h hhost
      cases o with
      | sendErr =>
        cases i with
        | zero =>
          exact absurd hhost.symm htarget
        | succ j =>
          have hlen : j < (traceRun target rest).length := by
            simpa [traceRun] using h
          have hj := ih j hlen (by simpa [traceRun] using hhost)
          have hstep : (traceRun target (HopOutcome.sendErr :: rest)).length
              = (traceRun target rest).length + 1 := by simp [traceRun]
          rw [hstep]
          omega
      | timeout =>
        cases i with
        | zero =>
          exact absurd hhost.symm htarget
        | succ j =>
          have hlen : j < (traceRun target rest).length := by
            simpa [traceRun] using h
          have hj := ih j hlen (by simpa [traceRun] using hhost)
          have hstep : (traceRun target (HopOutcome.timeout :: rest)).length
              = (traceRun target rest).length + 1 := by simp [traceRun]
          rw [hstep]
          omega
      | reply a r =>
        by_cases ha : a = target
        · cases i with
          | zero => simp [traceRun, ha]
          | succ j =>
            simp [traceRun, ha] at h
        · cases i with
          | zero =>
            simp only [traceRun, if_neg ha, List.get] at hhost
            exact absurd hhost ha
          | succ j =>
            have hlen : j < (traceRun target rest).length := by
              simpa [traceRun, if_neg ha] using h
            have hj := ih j hlen (by simpa [traceRun, if_neg ha] using hhost)
            have hstep : (traceRun target (HopOutcome.reply a r :: rest)).length
                = (traceRun target rest).length + 1 := by
              simp [traceRun, if_neg ha]
            rw [hstep]
            omega

/-- C5 witness: the invariants applied to a concrete two-ttl trace against
the target `"9.8.7.6"`: a timeout followed by the destination answering. -/
theorem trace_invariants_witness :
    (traceRun "9.8.7.6" [.timeout, .reply "9.8.7.6" 3]).length ≤ 2 :=
  (trace_invariants "9.8.7.6" [.timeout, .reply "9.8.7.6" 3] (by decide)).1

/-! ## IPv4 trace response filtering (`traceroute.trace`, receive loop)

The receive loop of the functional `trace` reads packets from the raw ICMP
socket and `break`s on the first one for which `isTraceResponse(pkt)` holds
and whose embedded destination and identifier match this trace.  The Python
lambdas index the packet directly (`x[20]`, `x[50]`, `x[51]`) inside a
`try` that catches only `socket.timeout`, so an out-of-range index raises
`IndexError` and aborts the whole trace instead of discarding the packet.
The embedding keeps that error path explicit: a partial access is an
`Option` that is `none` exactly when Python raises, and the loop returns
`Except`, with `.error` marking the aborted trace.  The slice `x[44:48]`
never raises; like Python, it yields a shorter (partial) string on packets
shorter than 48 bytes.
-/

/-- `isTraceResponse` for IPv4 (`lambda x: x[20] in {11, 3}`); `none` is
the `IndexError` that `x[20]` raises on packets of length at most 20. -/
def isTraceResponse4 (x : List ℕ) : Option Bool :=
  match x.get? 20 with
  | none => none
  | some t => some (decide (t = 11 ∨ t = 3))

/-- `getIntendedDestination` for IPv4
(`".".join(str(byte) for byte in x[44:48])`): the slice never raises, so a
packet shorter than 48 bytes yields a partial dotted string, exactly as in
Python. -/
def getIntendedDestination4 (x : List ℕ) : String :=
  String.intercalate "." (((x.drop 44).take 4).map toString)

/-- `getID` (`lambda x: (x[50] << 8) + x[51]`): the destination port of the
quoted original datagram; `none` is the `IndexError` raised on packets of
length less than 52. -/
def getID (x : List ℕ) : Option ℕ :=
  match x.get? 50, x.get? 51 with
  | some a, some b => some (a * 256 + b)
  | _, _ => none

/-- A packet delivered by a raw receive socket: payload bytes, source
address and arrival time in seconds. -/
structure RecvPacket where
  data : List ℕ
  srcAddr : String
  arrival : ℚ
deriving DecidableEq

/-- What one iteration of the receive loop does with one packet. -/
inductive RecvStep
  | crash  : RecvStep
  | accept : RecvStep
  | skip   : RecvStep
deriving DecidableEq

/-- The body of the receive loop (`trace`, lines 213–218), with the Python
evaluation order: `isTraceResponse(pkt)` first (its `IndexError` escapes),
the destination comparison next, and `getID(pkt)` only when the destination
matches (its `IndexError` escapes too); `break` on a full match. -/
def traceRecvStep (target : String) (myID : ℕ) (x : List ℕ) : RecvStep :=
  match isTraceResponse4 x with
  | none => .crash
  | some false => .skip
  | some true =>
      if getIntendedDestination4 x = target then
        match getID x with
        | none => .crash
        | some i => if i = myID then .accept else .skip
      else .skip

/-- The receive loop of `traceroute.trace`: packets are read in order until
one qualifies (`.ok (some p)`), the stream is exhausted
(`socket.timeout`, `.ok none`), or an uncaught `IndexError` aborts the
trace (`.error ()`). -/
def traceRecvLoop (target : String) (myID : ℕ) :
    List RecvPacket → Except Unit (Option RecvPacket)
  | [] => .ok none
  | p :: ps =>
      match traceRecvStep target myID p.data with
      | .crash => .error ()
      | .accept => .ok (some p)
      | .skip => traceRecvLoop target myID ps

/-- A well-formed qualifying response: outer IP header, type 11 at offset
20, destination `9.8.7.6` quoted at bytes 44–48, port 5 at bytes 50–52. -/
def tracePkt0 : List ℕ :=
  List.replicate 20 0 ++ 11 :: List.replicate 23 0 ++ [9, 8, 7, 6, 0, 0, 0, 5]

/-- `tracePkt0` truncated right after its matching embedded destination:
48 bytes, so `getID` has nothing to read. -/
def tracePkt0Truncated : List ℕ :=
  List.replicate 20 0 ++ 11 :: List.replicate 23 0 ++ [9, 8, 7, 6]

example : traceRecvStep "9.8.7.6" 5 tracePkt0 = .accept := by decide

example : traceRecvStep "9.8.7.7" 5 tracePkt0 = .skip := by decide

example : traceRecvStep "9.8.7.6" 4 tracePkt0 = .skip := by decide

/-- C6: evaluation at the failing inputs.  A well-formed packet is accepted
exactly under the claimed type/destination/identifier test (first three
conjuncts), but the final clause of the claim — "every other packet is
discarded without affecting the trace" — is false of the code: a runt
packet (length ≤ 20) makes the loop abort with an uncaught `IndexError`
instead of returning the timeout result it returns without that packet, and
a truncated type-11 packet whose embedded destination matches the target
aborts the same way inside `getID`. -/
theorem trace_recv_runt_aborts :
    traceRecvStep "9.8.7.6" 5 tracePkt0 = .accept ∧
    traceRecvLoop "9.8.7.6" 5 [⟨tracePkt0, "1.0.0.1", 7⟩]
      = .ok (some ⟨tracePkt0, "1.0.0.1", 7⟩) ∧
    traceRecvStep "9.8.7.6" 5 [0] = .crash ∧
    traceRecvLoop "9.8.7.6" 5 [⟨[0], "1.0.0.1", 7⟩] = .error () ∧
    traceRecvLoop "9.8.7.6" 5 [] = .ok none ∧
    traceRecvStep "9.8.7.6" 5 tracePkt0Truncated = .crash :=
  ⟨by decide, rfl, by decide, rfl, rfl, by decide⟩

/-! ## Echo receive loop (`ping.Pinger.recv`)

`Pinger.recv` loops on `recvfrom`: a packet whose source address differs
from the target host is dropped; otherwise the packet is parsed and, if the
sequence number is nonnegative, the loop returns the arrival time minus the
stored send timestamp for that sequence number.  `socket.timeout` ends the
loop with −1.  The timestamp map `ts` is modelled as a total function; the
`Collector` stores a timestamp for every sequence number it sends before
any reply to it can be received. -/

/-- A packet is relevant to `Pinger.recv` when its source address is the
target host and it parses to a nonnegative sequence number. -/
def pingRelevant (hostAddr : String) (parse : List ℕ → Int) (p : RecvPacket) : Bool :=
  decide (p.srcAddr = hostAddr ∧ 0 ≤ parse p.data)

/-- `Pinger.recv` over a finite stream of deliverable packets; exhausting
the stream models the receive timeout returning −1. -/
def pingerRecv (hostAddr : String) (parse : List ℕ → Int) (ts : ℕ → ℚ) :
    List RecvPacket → ℚ
  | [] => -1
  | p :: ps =>
      if p.srcAddr = hostAddr then
        if 0 ≤ parse p.data then p.arrival - ts (parse p.data).toNat
        else pingerRecv hostAddr parse ts ps
      else pingerRecv hostAddr parse ts ps

/-- The receive loop only sees the relevant subsequence of its input. -/
lemma pingerRecv_eq_filter (hostAddr : String) (parse : List ℕ → Int) (ts : ℕ → ℚ)
    (s : List RecvPacket) :
    pingerRecv hostAddr parse ts s
      = pingerRecv hostAddr parse ts (s.filter (pingRelevant hostAddr parse)) := by
  induction s with
  | nil => rfl
  | cons p ps ih =>
    by_cases h1 : p.srcAddr = hostAddr
    · by_cases h2 : 0 ≤ parse p.data
      · have hrel : pingRelevant hostAddr parse p = true := by
          simp [pingRelevant, h1, h2]
        rw [List.filter_cons_of_pos hrel]
        simp [pingerRecv, h1, h2]
      · have hrel : ¬ pingRelevant hostAddr parse p = true := by
          simp [pingRelevant, h2]
        rw [List.filter_cons_of_neg hrel]
        simpa [pingerRecv, h1, h2] using ih
    · have hrel : ¬ pingRelevant hostAddr parse p = true := by
        simp [pingRelevant, h1]
      rw [List.filter_cons_of_neg hrel]
      simpa [pingerRecv, h1] using ih

/-- C8: two-run noninterference of the echo receive loop.  Streams that
agree on their subsequences of relevant packets (packets from the target
host that parse to a valid sequence number) produce the same result, so
inserting or removing foreign or undecodable packets never changes the
returned value; a relevant packet at the head resolves the receive with the
rtt computed from the stored send timestamp of its sequence number, and an
irrelevant one is discarded. -/
theorem pinger_recv_noninterference (hostAddr : String) (parse : List ℕ → Int)
    (ts : ℕ → ℚ) :
    (∀ s1 s2 : List RecvPacket,
      s1.filter (pingRelevant hostAddr parse) = s2.filter (pingRelevant hostAddr parse) →
        pingerRecv hostAddr parse ts s1 = pingerRecv hostAddr parse ts s2) ∧
    (∀ (p : RecvPacket) (ps : List RecvPacket),
      pingRelevant hostAddr parse p = false →
        pingerRecv hostAddr parse ts (p :: ps) = pingerRecv hostAddr parse ts ps) ∧
    (∀ (p : RecvPacket) (ps : List RecvPacket),
      pingRelevant hostAddr parse p = true →
        pingerRecv hostAddr parse ts (p :: ps)
          = p.arrival - ts (parse p.data).toNat) := by
  refine ⟨?_, ?_, ?_⟩
  · intro s1 s2 hfil
    rw [pingerRecv_eq_filter hostAddr parse ts s1,
      pingerRecv_eq_filter hostAddr parse ts s2, hfil]
  · intro p ps hp
    simp only [pingRelevant, decide_eq_false_iff_not, not_and, not_le] at hp
    by_cases h1 : p.srcAddr = hostAddr
    · simp [pingerRecv, h1, not_le.mpr (hp h1)]
    · simp [pingerRecv, h1]
  · intro p ps hp
    simp only [pingRelevant, decide_eq_true_eq] at hp
    simp [pingerRecv, hp.1, hp.2]

/-- C8 witness: applying the noninterference theorem to a concrete pair of
streams — one with a foreign packet and an undecodable packet interleaved
around the matching echo reply, one with the matching reply alone — under
the IPv4 parser. -/
theorem pinger_recv_noninterference_witness :
    pingerRecv "9.8.7.6" icmpv4Parse (fun _ => 0)
        [⟨[1, 2, 3], "5.5.5.5", 4⟩,
         ⟨[1, 2, 3], "9.8.7.6", 5⟩,
         ⟨List.replicate 20 0 ++ [0, 0, 0, 0, 0, 0, 0, 2], "9.8.7.6", 6⟩]
      = pingerRecv "9.8.7.6" icmpv4Parse (fun _ => 0)
        [⟨List.replicate 20 0 ++ [0, 0, 0, 0, 0, 0, 0, 2], "9.8.7.6", 6⟩] :=
  (pinger_recv_noninterference "9.8.7.6" icmpv4Parse (fun _ => 0)).1
    [⟨[1, 2, 3], "5.5.5.5", 4⟩,
     ⟨[1, 2, 3], "9.8.7.6", 5⟩,
     ⟨List.replicate 20 0 ++ [0, 0, 0, 0, 0, 0, 0, 2], "9.8.7.6", 6⟩]
    [⟨List.replicate 20 0 ++ [0, 0, 0, 0, 0, 0, 0, 2], "9.8.7.6", 6⟩]
    (by simp [pingRelevant, icmpv4Parse, List.filter])

/-! ## Trace comparison (`utils.compareTraces` / `compareTraceSteps`)

`TraceStep.__bool__` is `traceStepIsValid` (`rtt >= 0 and host != "*"`),
`TraceStep.__eq__` is `compareTraceSteps` (hosts only), and
`Trace.__eq__` is `compareTraces`, which filters each trace down to its
valid steps and compares lengths and hosts position-wise.
-/

/-- `utils.traceStepIsValid`: `self.rtt >= 0 and self.host != "*"`. -/
def traceStepIsValid (s : TraceStep) : Bool :=
  decide (0 ≤ s.rtt) && decide (s.host ≠ "*")

/-- `utils.compareTraceSteps`: step equality compares hosts only. -/
def compareTraceSteps (a b : TraceStep) : Bool := a.host == b.host

/-- `utils.compareTraces`: filter both traces down to their valid steps,
then require equal length and step equality at every index.  (Python's
`and` evaluates the `all(...)` only when the lengths are equal, so the
indexing in it never goes out of range; `List.getD` matches it.) -/
def compareTraces (a b : List TraceStep) : Bool :=
  let lhs := a.filter traceStepIsValid
  let rhs := b.filter traceStepIsValid
  lhs.length == rhs.length &&
    (List.range lhs.length).all fun i =>
      compareTraceSteps (lhs.getD i ⟨"", 0⟩) (rhs.getD i ⟨"", 0⟩)

example :
    compareTraces [⟨"1.2.3.4", 5⟩, ⟨"*", -1⟩, ⟨"5.6.7.8", 9⟩]
      [⟨"1.2.3.4", 1⟩, ⟨"5.6.7.8", 2⟩] = true := by decide

example :
    compareTraces [⟨"1.2.3.4", 5⟩] [⟨"5.6.7.8", 5⟩] = false := by decide

/-- C7: two traces compare equal iff their subsequences of valid steps
(`rtt ≥ 0` and host not `"*"`) have the same length and equal hosts at
every index; inserting an invalid (sentinel) step anywhere in either trace
never changes the comparison; and step equality tests only the host
address, never the rtt. -/
theorem compare_traces_spec (a b : List TraceStep) :
    (compareTraces a b = true ↔
      ((a.filter traceStepIsValid).length = (b.filter traceStepIsValid).length ∧
        ∀ (i : ℕ) (h1 : i < (a.filter traceStepIsValid).length)
          (h2 : i < (b.filter traceStepIsValid).length),
          ((a.filter traceStepIsValid).get ⟨i, h1⟩).host
            = ((b.filter traceStepIsValid).get ⟨i, h2⟩).host)) ∧
    (∀ s : TraceStep, traceStepIsValid s = false →
      ∀ pre post : List TraceStep,
        compareTraces (pre ++ s :: post) b = compareTraces (pre ++ post) b ∧
        compareTraces a (pre ++ s :: post) = compareTraces a (pre ++ post)) ∧
    (∀ x y : TraceStep, compareTraceSteps x y = true ↔ x.host = y.host) := by
  refine ⟨?_, ?_, fun x y => beq_iff_eq⟩
  · simp only [compareTraces, compareTraceSteps, Bool.and_eq_true, beq_iff_eq,
      List.all_eq_true, List.mem_range]
    constructor
    · rintro ⟨hlen, hall⟩
      refine ⟨hlen, fun i h1 h2 => ?_⟩
      have h := hall i h1
      rwa [List.getD_eq_getElem _ _ h1, List.getD_eq_getElem _ _ h2] at h
    · rintro ⟨hlen, hall⟩
      refine ⟨hlen, fun i hi => ?_⟩
      rw [List.getD_eq_getElem _ _ hi, List.getD_eq_getElem _ _ (hlen ▸ hi)]
      exact hall i hi (hlen ▸ hi)
  · intro s hs pre post
    have hf : (pre ++ s :: post).filter traceStepIsValid
        = (pre ++ post).filter traceStepIsValid := by
      rw [List.filter_append, List.filter_append,
        List.filter_cons_of_neg (by simp [hs])]
    constructor
    · simp only [compareTraces, hf]
    · simp only [compareTraces, hf]

/-- C7 witness: the specification applied to the spec's test vector — the
trace `[("1.2.3.4", 5), ("*", −1), ("5.6.7.8", 9)]` equals
`[("1.2.3.4", 1), ("5.6.7.8", 2)]` under the defined comparison. -/
theorem compare_traces_spec_witness :
    compareTraces [⟨"1.2.3.4", 5⟩, ⟨"*", -1⟩, ⟨"5.6.7.8", 9⟩]
      [⟨"1.2.3.4", 1⟩, ⟨"5.6.7.8", 2⟩] = true :=
  (compare_traces_spec [⟨"1.2.3.4", 5⟩, ⟨"*", -1⟩, ⟨"5.6.7.8", 9⟩]
      [⟨"1.2.3.4", 1⟩, ⟨"5.6.7.8", 2⟩]).1.mpr
    ⟨by decide, by decide⟩

/-! ## Service probe banner extraction (`ports.Scanner.http` / `Scanner.mysql`)

After a successful receive into its 1 KB buffer, `Scanner.http` decodes the
status code from bytes 9–12, then looks for `b'Server: '`; both
`bytearray.index` calls sit in one `try` whose `except ValueError` returns
the banner string literal spelled `"Unkown"` in the source.  Bytes are
decoded by codepoint, which agrees with Python's UTF-8 `.decode()` on the
ASCII ranges these probes extract. -/

/-- Byte-wise decoding to a string (agrees with `bytes.decode()` on
ASCII). -/
def asciiDecode (bs : List ℕ) : String := String.mk (bs.map Char.ofNat)

/-- `bytes.index(needle)`: index of the first occurrence, `none` for
Python's `ValueError`. -/
def indexOfSub : List ℕ → List ℕ → Option ℕ
  | [], needle => if needle = [] then some 0 else none
  | h :: t, needle =>
      if needle.isPrefixOf (h :: t) then some 0
      else (indexOfSub t needle).map (· + 1)

/-- `bytearray.index(byte, start)`: index of the first occurrence at or
after `start`, `none` for Python's `ValueError`. -/
def indexOfByteFrom (hay : List ℕ) (b : ℕ) (start : ℕ) : Option ℕ :=
  ((hay.drop start).findIdx? (· == b)).map (· + start)

/-- The bytes of `b'Server: '`. -/
def serverHeaderBytes : List ℕ := [83, 101, 114, 118, 101, 114, 58, 32]

/-- The response-parsing tail of `Scanner.http` (lines 176–191): status
from bytes 9–12, banner from after `b'Server: '` up to the next `b'\r'`;
on either `ValueError` the banner is the literal `"Unkown"` from the
source. -/
def scannerHttpParse (buf : List ℕ) (rtt : ℚ) : ℚ × String × String :=
  let status := asciiDecode ((buf.drop 9).take 3)
  match indexOfSub buf serverHeaderBytes with
  | none => (rtt * 1000, status, "Unkown")
  | some srv =>
      match indexOfByteFrom buf 13 srv with
      | none => (rtt * 1000, status, "Unkown")
      | some e => (rtt * 1000, status, asciiDecode ((buf.drop (srv + 8)).take (e - (srv + 8))))

/-- The bytes of `b"HTTP/1.1 200 OK\r\n\r\n"` — a well-formed response
with no `Server:` header. -/
def httpNoServerBuf : List ℕ :=
  [72, 84, 84, 80, 47, 49, 46, 49, 32, 50, 48, 48, 32, 79, 75, 13, 10, 13, 10]

/-- The bytes of `b"HTTP/1.1 200 OK\r\nServer: nginx\r\n\r\n"`. -/
def httpNginxBuf : List ℕ :=
  [72, 84, 84, 80, 47, 49, 46, 49, 32, 50, 48, 48, 32, 79, 75, 13, 10,
   83, 101, 114, 118, 101, 114, 58, 32, 110, 103, 105, 110, 120, 13, 10, 13, 10]

example : (scannerHttpParse httpNginxBuf 1).2.2 = "nginx" := by decide

example : (scannerHttpParse httpNginxBuf 1).2.1 = "200" := by decide

/-- C9: evaluation at the failing input.  On a response with no `Server:`
header the HTTP probe reports the status and a present banner, but the
banner string is the misspelled `"Unkown"`, not `"Unknown"` as the
specification states. -/
theorem scanner_http_unknown_typo :
    (scannerHttpParse httpNoServerBuf 1).2.2 = "Unkown" ∧
    (scannerHttpParse httpNoServerBuf 1).2.2 ≠ "Unknown" ∧
    (scannerHttpParse httpNoServerBuf 1).2.1 = "200" :=
  ⟨by decide, by decide, by decide⟩

/-! ## Collector trace fallback (`collector.Collector`)

The class attribute `Collector.result` holds the fallback values; its trace
slot is `utils.Trace([utils.TraceStep('*', -1)] * 10)` — ten sentinel
steps, written independently of the configured hop limit.  When
`trace_result.get(self.conf.HOPS)` raises `multiprocessing.TimeoutError`,
`Collector.run` stores that class attribute as the trace result. -/

/-- The fallback trace from the `Collector.result` class attribute:
`[TraceStep('*', -1)] * 10`. -/
def collectorDefaultTrace : List TraceStep := List.replicate 10 ⟨"*", -1⟩

/-- The trace slot assignment of `Collector.run`: the sub-probe's result,
or the fixed fallback on timeout.  `hops` is the configured `HOPS` value
(used by the source only as the `get` timeout). -/
def collectorRunTrace (hops : ℕ) (res : Option (List TraceStep)) : List TraceStep :=
  match res with
  | some t => t
  | none => collectorDefaultTrace

/-- C10: when the route-trace sub-probe delivers no result in time, the
collector substitutes the fixed fallback trace of exactly ten sentinel
steps `("*", −1)`, for every configured hop limit — the fallback does not
depend on `hops` at all. -/
theorem collector_trace_fallback (hops : ℕ) :
    collectorRunTrace hops none = collectorDefaultTrace ∧
    (collectorRunTrace hops none).length = 10 ∧
    (collectorRunTrace hops none).all (· == (⟨"*", -1⟩ : TraceStep)) = true ∧
    ∀ hops2 : ℕ, collectorRunTrace hops none = collectorRunTrace hops2 none := by
  refine ⟨rfl, ?_, ?_, fun _ => rfl⟩
  · show collectorDefaultTrace.length = 10
    decide
  · show collectorDefaultTrace.all (· == (⟨"*", -1⟩ : TraceStep)) = true
    decide

end Connvitals
